import Mathlib

/-!
Shallow embedding of the taxonomy Lineage Engine (`taxonomy.py`, class
`Taxonomy`) and proofs of the specification's claims about it.

Modelling conventions:
* tax_ids and source ids are `Nat`; rank labels and names are `String`.
* The three relations `nodes`, `names`, `source` are lists of rows; a SQL
  point lookup (`select ... fetchone()`) is `List.find?` (first matching row).
* Python dicts (`self.cached`, `self.taxa`, the lineage dict `d`) are
  association lists in insertion order; assignment `d[k] = v` updates an
  existing key in place, else appends (`dset`).
* Python exceptions (KeyError, ValueError, TypeError, RecursionError) are
  `Except String`.
* The unbounded recursion of `_get_lineage` is given explicit fuel; running
  out of fuel models Python's RecursionError on a malformed (cyclic) store.
* `self.rankset` is always `set(self.ranks)` after every mutation, so rank
  membership is modelled directly as membership in the `ranks` list.
* To make the spec's "no additional store lookups" claims statable, the
  state carries counters `nodeLookups`/`nameLookups` bumped by each query
  against the `nodes`/`names` relations.
* The field `undef_pfx` embeds the constructor argument whose source name is
  the concatenation of `undef` and an underscore with the word that also
  names Lean's prefix-operator command, which cannot appear here verbatim.
-/

/-- A row of the `nodes` relation: `(tax_id, parent_id, rank, source_id)`. -/
structure NodeRow where
  tax_id : Nat
  parent_id : Nat
  rank : String
  source_id : Nat
deriving DecidableEq, Repr

/-- A row of the `names` relation: `(tax_id, tax_name, is_primary)`. -/
structure NameRow where
  tax_id : Nat
  tax_name : String
  is_primary : Nat
deriving DecidableEq, Repr

/-- A row of the `source` relation: `(id, name UNIQUE, description)`. -/
structure SourceRow where
  id : Nat
  name : String
  description : Option String
deriving DecidableEq, Repr

/-- Python-dict lookup on an association list: value of the first matching
key, if any (`d.get(k)`). -/
def dget {κ α : Type} [BEq κ] : List (κ × α) → κ → Option α
  | [], _ => none
  | p :: l, k => if p.1 == k then some p.2 else dget l k

/-- Python-dict assignment `d[k] = v`: replace the value at an existing key
in place (keys are unique in a dict, so only the first binding can match),
else append the new binding at the end (dicts preserve insertion order). -/
def dset {κ α : Type} [BEq κ] : List (κ × α) → κ → α → List (κ × α)
  | [], k, v => [(k, v)]
  | p :: l, k, v => if p.1 == k then (k, v) :: l else p :: dset l k v

/-- The lineage record cached in `self.taxa`: the rank→tax_id dict built by
`_rename_undefined` plus the four metadata keys `lineage` adds to it.
In Python all live in one dict; the metadata assignments happen last, so on
a key collision the metadata value wins (reflected in `cellFor`). -/
structure LineageRecord where
  rankMap : List (String × Nat)
  tax_id : Nat
  parent_id : Nat
  rank : String
  tax_name : String
deriving DecidableEq, Repr

/-- The state of one `Taxonomy` engine instance: the three relations of the
store it is bound to, the autoincrement counter for `source.id`, and the
instance attributes set up in `__init__` (`ranks`, `cached`, `taxa`,
`undefined_rank`, the synthesis label head), plus the two
store-lookup counters used to state the cache-hit claims. -/
structure Taxonomy where
  nodes : List NodeRow
  names : List NameRow
  source : List SourceRow
  sourceNextId : Nat
  ranks : List String
  cached : List (Nat × List (String × Nat))
  taxa : List (Nat × LineageRecord)
  undefined_rank : String
  undef_pfx : String
  nodeLookups : Nat
  nameLookups : Nat
deriving DecidableEq, Repr

namespace Taxonomy

/-- `Taxonomy._add_rank(rank, parent_rank)`: if `rank` is not yet registered,
insert it immediately after the first occurrence of `parent_rank`; `.index`
raises ValueError when `parent_rank` is absent. (`rankset` is re-derived from
`ranks` afterwards, so it is not modelled separately.) -/
def _add_rank (st : Taxonomy) (rank parent_rank : String) :
    Except String Taxonomy :=
  if rank ∈ st.ranks then .ok st
  else if parent_rank ∈ st.ranks then
    .ok { st with
          ranks := st.ranks.insertIdx (st.ranks.indexOf parent_rank + 1) rank }
  else .error "ValueError: parent_rank is not in list"

/-- `Taxonomy._node(tax_id)`: point lookup in `nodes`, returning
`(parent_id, rank)`; KeyError when no row matches. Bumps the node-lookup
counter (the query is issued before `fetchone` decides the outcome). -/
def _node (st : Taxonomy) (tax_id : Nat) :
    Except String (Taxonomy × Nat × String) :=
  let st' := { st with nodeLookups := st.nodeLookups + 1 }
  match st.nodes.find? (fun r => r.tax_id == tax_id) with
  | none => .error "KeyError: value not found in nodes.tax_id"
  | some r => .ok (st', r.parent_id, r.rank)

/-- `Taxonomy.primary_name(tax_id)`: point lookup in `names` with
`is_primary == 1`; KeyError when no row matches. -/
def primary_name (st : Taxonomy) (tax_id : Nat) :
    Except String (Taxonomy × String) :=
  let st' := { st with nameLookups := st.nameLookups + 1 }
  match st.names.find? (fun r => r.tax_id == tax_id && r.is_primary == 1) with
  | none => .error "KeyError: value not found in names.tax_id"
  | some r => .ok (st', r.tax_name)

/-- Loop body of `Taxonomy._rename_undefined`: walk the chain root-to-leaf
carrying `parent_rank` (`none` initially: Python's `None`) and the dict `d`.
A sentinel rank is replaced by head-label ++ "_" ++ parent_rank — a TypeError
when `parent_rank` is still `None` — and registered via `_add_rank`.
(`parent_id` is also tracked in the source but never read; omitted.) -/
def _rename_undefined_go (st : Taxonomy) (parent_rank : Option String)
    (d : List (String × Nat)) :
    List (String × Nat) → Except String (Taxonomy × List (String × Nat))
  | [] => .ok (st, d)
  | (rank, tax_id) :: rest =>
    if rank == st.undefined_rank then
      match parent_rank with
      | none => .error "TypeError: cannot concatenate str and NoneType"
      | some p =>
        let rank' := st.undef_pfx ++ "_" ++ p
        match st._add_rank rank' p with
        | .error e => .error e
        | .ok st' =>
          _rename_undefined_go st' (some rank') (dset d rank' tax_id) rest
    else
      _rename_undefined_go st (some rank) (dset d rank tax_id) rest

/-- `Taxonomy._rename_undefined(lineage)`. -/
def _rename_undefined (st : Taxonomy) (lineage : List (String × Nat)) :
    Except String (Taxonomy × List (String × Nat)) :=
  _rename_undefined_go st none [] lineage

/-- The body of the `if not lineage:` block of `_get_lineage`: look the node
up, recur on the parent (through `recur`, the recursive call at the next
depth) unless the node is its own parent, and cache the resulting chain
under `tax_id`. -/
def _get_lineage_build
    (recur : Taxonomy → Nat → Except String (Taxonomy × List (String × Nat)))
    (st : Taxonomy) (tax_id : Nat) :
    Except String (Taxonomy × List (String × Nat)) :=
  match st._node tax_id with
  | .error e => .error e
  | .ok (st1, parent_id, rank) =>
    if parent_id == tax_id then
      let l := [(rank, tax_id)]
      .ok ({ st1 with cached := dset st1.cached tax_id l }, l)
    else
      match recur st1 parent_id with
      | .error e => .error e
      | .ok (st2, pl) =>
        let l := pl ++ [(rank, tax_id)]
        .ok ({ st2 with cached := dset st2.cached tax_id l }, l)

/-- `Taxonomy._get_lineage(tax_id)`: cached ancestor chain, else recursive
reconstruction up the parent links, caching the result. Python's
`if not lineage` treats a missing key and a cached `[]` alike, hence the
wildcard fallthrough. `fuel` bounds the recursion depth (Python
RecursionError on exhaustion). -/
def _get_lineage : Nat → Taxonomy → Nat →
    Except String (Taxonomy × List (String × Nat))
  | 0, _, _ => .error "RecursionError: maximum recursion depth exceeded"
  | fuel + 1, st, tax_id =>
    match dget st.cached tax_id with
    | some (x :: xs) => .ok (st, x :: xs)
    | _ => _get_lineage_build (fun s u => _get_lineage fuel s u) st tax_id

/-- Body of `Taxonomy.lineage` past the `self.taxa` cache check: build the
chain, rename undefined ranks, attach `tax_id`, `parent_id`/`rank` (a second
`_node` lookup) and `tax_name`, and cache the record under `tax_id`. -/
def lineage_core (fuel : Nat) (st : Taxonomy) (tax_id : Nat) :
    Except String (Taxonomy × LineageRecord) :=
  match _get_lineage fuel st tax_id with
  | .error e => .error e
  | .ok (st1, chain) =>
    match st1._rename_undefined chain with
    | .error e => .error e
    | .ok (st2, d) =>
      match st2._node tax_id with
      | .error e => .error e
      | .ok (st3, parent_id, rank) =>
        match st3.primary_name tax_id with
        | .error e => .error e
        | .ok (st4, nm) =>
          .ok ({ st4 with
                 taxa := dset st4.taxa tax_id
                   (LineageRecord.mk d tax_id parent_id rank nm) },
               LineageRecord.mk d tax_id parent_id rank nm)

/-- `Taxonomy.lineage(tax_id, cache_parents=False)`: the record cache is
consulted first (a cached record is never the empty dict, so Python's
`if not ldict` is a plain presence test). -/
def lineage1 (fuel : Nat) (st : Taxonomy) (tax_id : Nat) :
    Except String (Taxonomy × LineageRecord) :=
  match dget st.taxa tax_id with
  | some ldict => .ok (st, ldict)
  | none => lineage_core fuel st tax_id

/-- The parent-caching pass of `lineage`: the list comprehension
`[self.lineage(tid, cache_parents=False) for rank, tid in self.cached[tax_id]]`,
run for its side effect on the cache. -/
def cache_parents_go (fuel : Nat) :
    Taxonomy → List (String × Nat) → Except String Taxonomy
  | st, [] => .ok st
  | st, (_, tid) :: rest =>
    match lineage1 fuel st tid with
    | .error e => .error e
    | .ok (st', _) => cache_parents_go fuel st' rest

/-- `Taxonomy.lineage(tax_id)` with the default `cache_parents=True`:
after building and caching the record, every tax_id on the freshly cached
chain `self.cached[tax_id]` gets its own record built too; the original
record (the local `ldict`) is returned. -/
def lineage (fuel : Nat) (st : Taxonomy) (tax_id : Nat) :
    Except String (Taxonomy × LineageRecord) :=
  match dget st.taxa tax_id with
  | some ldict => .ok (st, ldict)
  | none =>
    match lineage_core fuel st tax_id with
    | .error e => .error e
    | .ok (st1, ldict) =>
      match dget st1.cached tax_id with
      | none => .error "KeyError: tax_id not in self.cached"
      | some chain =>
        match cache_parents_go fuel st1 chain with
        | .error e => .error e
        | .ok st2 => .ok (st2, ldict)

/-- The four fixed columns `['tax_id','parent_id','rank','tax_name']`. -/
def metaFields : List String := ["tax_id", "parent_id", "rank", "tax_name"]

/-- The key set of a cached lineage dict as Python sees it: the rank keys
inserted by `_rename_undefined` plus the four metadata keys. (Order and
duplication are irrelevant — this is only used for membership tests.) -/
def recKeys (r : LineageRecord) : List String :=
  r.rankMap.map (·.1) ++ metaFields

/-- `represented` in `write_table(full=False)`: the union of the key sets of
every record in `self.taxa`. -/
def represented (st : Taxonomy) : List String :=
  (st.taxa.map (fun p => recKeys p.2)).flatten

/-- The cell `DictWriter` emits for field `f` of record `r`: the metadata
fields were assigned after the rank keys, so they shadow a like-named rank
key; a rank absent from this record renders as missing (`none`, the
empty-string `restval` in the CSV text). -/
def cellFor (r : LineageRecord) (f : String) : Option String :=
  if f == "tax_id" then some (Nat.repr r.tax_id)
  else if f == "parent_id" then some (Nat.repr r.parent_id)
  else if f == "rank" then some r.rank
  else if f == "tax_name" then some r.tax_name
  else (dget r.rankMap f).map Nat.repr

/-- The row loop of `write_table`: `lin = self.lineage(tax_id)` — with the
default `cache_parents=True`, so an uncached taxon is built (and cached!)
here — then one row of cells per taxon in order. -/
def write_rows (fuel : Nat) (fields : List String) :
    Taxonomy → List Nat → Except String (Taxonomy × List (List (Option String)))
  | st, [] => .ok (st, [])
  | st, t :: rest =>
    match lineage fuel st t with
    | .error e => .error e
    | .ok (st1, ldict) =>
      match write_rows fuel fields st1 rest with
      | .error e => .error e
      | .ok (st2, rows) => .ok (st2, (fields.map (cellFor ldict)) :: rows)

/-- The effective taxon list of `write_table`: `if not taxa` treats `None`
and `[]` alike, defaulting to `self.cached.keys()` in insertion order. -/
def taxaArg (st : Taxonomy) (taxa : Option (List Nat)) : List Nat :=
  match taxa with
  | some (x :: xs) => x :: xs
  | _ => st.cached.map (·.1)

/-- `Taxonomy.write_table(taxa, csvfile, full)`: output is modelled as the
header (the field names, written first) plus the list of data rows.
`full=False` keeps only the registry ranks represented in some cached
record, in registry order. -/
def write_table (fuel : Nat) (st : Taxonomy) (taxa : Option (List Nat))
    (full : Bool) :
    Except String (Taxonomy × List String × List (List (Option String))) :=
  let ranks := if full then st.ranks
    else st.ranks.filter (fun r => r ∈ represented st)
  let fields := metaFields ++ ranks
  match write_rows fuel fields st (taxaArg st taxa) with
  | .error e => .error e
  | .ok (st', rows) => .ok (st', fields, rows)

/-- `Taxonomy.add_source(name, description)`: attempt the insert; the UNIQUE
constraint on `source.name` makes it an IntegrityError exactly when the name
is already present, in which case the existing id is looked up and returned
with `success=False`. -/
def add_source (st : Taxonomy) (name : String)
    (description : Option String) : Taxonomy × Nat × Bool :=
  match st.source.find? (fun r => r.name == name) with
  | some r => (st, r.id, false)
  | none =>
    let sid := st.sourceNextId
    ({ st with
       source := st.source ++ [⟨sid, name, description⟩],
       sourceNextId := sid + 1 }, sid, true)

/-- `Taxonomy.add_node(...)`: requires `source_id or source_name`
(ValueError otherwise); resolves `source_name` through `add_source` when
`source_id` is absent; inserts the node row and a primary-name row; returns
the fresh lineage. -/
def add_node (fuel : Nat) (st : Taxonomy) (tax_id parent_id : Nat)
    (rank tax_name : String) (source_id : Option Nat)
    (source_name : Option String) :
    Except String (Taxonomy × LineageRecord) :=
  match source_id, source_name with
  | none, none =>
    .error "ValueError: Taxonomy.add_node requires source_id or source_name"
  | _, _ =>
    let stSid : Taxonomy × Nat := match source_id, source_name with
      | some sid, _ => (st, sid)
      | none, some nm =>
        let (st', sid, _) := add_source st nm none
        (st', sid)
      | none, none => (st, 0)
    let st1 := stSid.1
    let st2 := { st1 with
      nodes := st1.nodes ++ [⟨tax_id, parent_id, rank, stSid.2⟩],
      names := st1.names ++ [⟨tax_id, tax_name, 1⟩] }
    lineage fuel st2 tax_id

/-- The specification's ancestor-chain recurrence, written from the spec's
words for comparison with `_get_lineage`: the chain of a taxon whose node is
its own parent is the singleton `[(rank, tax_id)]`; otherwise it is the
parent's chain with `(rank, tax_id)` appended. `n` bounds the chain length:
`chainSpec nodes n t = some l` says the parent chain of `t` reaches a root
within `n` steps and its root-to-taxon chain is `l`. -/
def chainSpec (nodes : List NodeRow) : Nat → Nat → Option (List (String × Nat))
  | 0, _ => none
  | n + 1, t =>
    match nodes.find? (fun r => r.tax_id == t) with
    | none => none
    | some r =>
      if r.parent_id = t then some [(r.rank, t)]
      else (chainSpec nodes n r.parent_id).map (· ++ [(r.rank, t)])

/-- The ancestor-chain cache is coherent: every cached chain is the spec
chain of its key. (Holds of the empty cache of a fresh engine and is
preserved by `_get_lineage`.) -/
def cachedCoherent (st : Taxonomy) : Prop :=
  ∀ t l, dget st.cached t = some l → ∃ n, chainSpec st.nodes n t = some l

/-- The parts of the engine state no lookup operation ever changes: the bound
store (all three relations and the id counter) and the configuration. -/
def storeEq (st st' : Taxonomy) : Prop :=
  st'.nodes = st.nodes ∧ st'.names = st.names ∧ st'.source = st.source ∧
  st'.sourceNextId = st.sourceNextId ∧
  st'.undefined_rank = st.undefined_rank ∧ st'.undef_pfx = st.undef_pfx

end Taxonomy

/-- A small store for concrete witnesses: a root (its own parent), an
intermediate taxon with the sentinel rank, and a species below it; a fresh
engine bound to it with the standard sentinel and synthesis settings. -/
def demoSt : Taxonomy :=
  { nodes := [⟨1, 1, "root", 0⟩, ⟨2, 1, "no_rank", 0⟩, ⟨3, 2, "species", 0⟩],
    names := [⟨1, "the root", 1⟩, ⟨2, "mid", 1⟩, ⟨3, "Staphylococcus aureus", 1⟩],
    source := [⟨1, "ncbi", none⟩], sourceNextId := 2,
    ranks := ["root", "genus", "species"],
    cached := [], taxa := [],
    undefined_rank := "no_rank", undef_pfx := "below",
    nodeLookups := 0, nameLookups := 0 }

/-- A one-node store (just a root) with a fresh engine, for the cache-hit
witnesses. -/
def tinySt : Taxonomy :=
  { nodes := [⟨1, 1, "root", 0⟩],
    names := [⟨1, "r", 1⟩],
    source := [], sourceNextId := 1,
    ranks := ["root"],
    cached := [], taxa := [],
    undefined_rank := "no_rank", undef_pfx := "below",
    nodeLookups := 0, nameLookups := 0 }

/-- `tinySt` after `lineage 2 tinySt 1`: the chain and the record for taxon 1
are cached, two `nodes` lookups and one `names` lookup were performed. -/
def tinySt1 : Taxonomy :=
  { tinySt with
    cached := [(1, [("root", 1)])],
    taxa := [(1, { rankMap := [("root", 1)], tax_id := 1, parent_id := 1,
                   rank := "root", tax_name := "r" })],
    nodeLookups := 2, nameLookups := 1 }

/-- A store whose root node carries an explicit rank `"funky"` that is not in
the engine's registry, and whose registry already lists `"below_root"` ahead
of `"root"`: used to refute the universally quantified registry claims. -/
def funkySt : Taxonomy :=
  { nodes := [⟨1, 1, "funky", 0⟩],
    names := [⟨1, "f", 1⟩],
    source := [], sourceNextId := 1,
    ranks := ["below_root", "root"],
    cached := [], taxa := [],
    undefined_rank := "no_rank", undef_pfx := "below",
    nodeLookups := 0, nameLookups := 0 }

/-- `funkySt` after `lineage 2 funkySt 1`: the lineage succeeded, yet the
explicit rank `"funky"` was never added to the registry. -/
def funkySt1 : Taxonomy :=
  { funkySt with
    cached := [(1, [("funky", 1)])],
    taxa := [(1, { rankMap := [("funky", 1)], tax_id := 1, parent_id := 1,
                   rank := "funky", tax_name := "f" })],
    nodeLookups := 2, nameLookups := 1 }

/-- An engine state whose lineage-record cache holds records for taxa 1 and 2,
where only taxon 2's record has the rank `"species"`: exporting only taxon 1
with `full=False` then emits a `"species"` column that is empty in every
exported row. -/
def twoRecSt : Taxonomy :=
  { nodes := [⟨1, 1, "root", 0⟩, ⟨2, 1, "species", 0⟩],
    names := [⟨1, "r", 1⟩, ⟨2, "s", 1⟩],
    source := [], sourceNextId := 1,
    ranks := ["root", "species"],
    cached := [(1, [("root", 1)]), (2, [("root", 1), ("species", 2)])],
    taxa := [(1, { rankMap := [("root", 1)], tax_id := 1, parent_id := 1,
                   rank := "root", tax_name := "r" }),
             (2, { rankMap := [("root", 1), ("species", 2)], tax_id := 2,
                   parent_id := 1, rank := "species", tax_name := "s" })],
    undefined_rank := "no_rank", undef_pfx := "below",
    nodeLookups := 4, nameLookups := 2 }

/-! ### Helper lemmas on dictionaries, `find?`, `indexOf` and `insertIdx` -/

namespace Taxonomy

theorem dget_dset_self {κ α : Type} [BEq κ] [LawfulBEq κ]
    (l : List (κ × α)) (k : κ) (v : α) : dget (dset l k v) k = some v := by
  induction l with
  | nil => simp [dget, dset]
  | cons p t ih =>
    by_cases h : p.1 = k
    · simp [dget, dset, h]
    · simp only [dset, beq_eq_false_iff_ne.mpr h, if_neg]
      simp only [beq_iff_eq, h, if_false, dget, ih]

theorem dget_dset_ne {κ α : Type} [BEq κ] [LawfulBEq κ]
    (l : List (κ × α)) {k k' : κ} (h : k' ≠ k) (v : α) :
    dget (dset l k v) k' = dget l k' := by
  induction l with
  | nil => simp [dget, dset, beq_iff_eq, (Ne.symm h)]
  | cons p t ih =>
    by_cases hp : p.1 = k
    · simp only [dset, hp, beq_self_eq_true, if_pos, dget, beq_iff_eq]
      simp [Ne.symm h, hp]
    · simp only [dset, beq_iff_eq, hp, if_false, dget]
      by_cases hk' : p.1 = k'
      · simp [hk']
      · simp [hk', ih]

theorem dget_isSome_of_mem_keys {κ α : Type} [BEq κ] [LawfulBEq κ]
    {l : List (κ × α)} {k : κ} (h : k ∈ l.map Prod.fst) :
    (dget l k).isSome := by
  induction l with
  | nil => simp at h
  | cons p t ih =>
    rcases List.mem_cons.mp h with h1 | h1
    · simp [dget, h1.symm]
    · by_cases hp : p.1 = k
      · simp [dget, hp]
      · simp only [dget, beq_iff_eq, hp, if_false]
        exact ih h1

theorem keys_dset {κ α : Type} [BEq κ] [LawfulBEq κ]
    {l : List (κ × α)} {k k' : κ} {v : α}
    (h : k' ∈ (dset l k v).map Prod.fst) :
    k' = k ∨ k' ∈ l.map Prod.fst := by
  induction l with
  | nil => simpa [dset] using h
  | cons p t ih =>
    by_cases hp : p.1 = k
    · simp only [dset, hp, beq_self_eq_true, if_pos, List.map_cons] at h
      rcases List.mem_cons.mp h with h1 | h1
      · exact .inl h1
      · exact .inr (List.mem_cons.mpr (.inr h1))
    · simp only [dset, beq_iff_eq, hp, if_false, List.map_cons] at h
      rcases List.mem_cons.mp h with h1 | h1
      · exact .inr (List.mem_cons.mpr (.inl h1))
      · rcases ih h1 with h2 | h2
        · exact .inl h2
        · exact .inr (List.mem_cons.mpr (.inr h2))

theorem dget_eq_of_mem_nodup {κ α : Type} [BEq κ] [LawfulBEq κ]
    {l : List (κ × α)} {p : κ × α}
    (hnd : (l.map Prod.fst).Nodup) (hm : p ∈ l) :
    dget l p.1 = some p.2 := by
  induction l with
  | nil => simp at hm
  | cons q t ih =>
    simp only [List.map_cons, List.nodup_cons] at hnd
    rcases List.mem_cons.mp hm with h1 | h1
    · simp [dget, h1]
    · have hq : q.1 ≠ p.1 := by
        intro he
        exact hnd.1 (he ▸ List.mem_map_of_mem Prod.fst h1)
      simp only [dget, beq_iff_eq, hq, if_false]
      exact ih hnd.2 h1

theorem find?_append_none {α : Type} {p : α → Bool} {l1 l2 : List α}
    (h : l1.find? p = none) : (l1 ++ l2).find? p = l2.find? p := by
  induction l1 with
  | nil => simp
  | cons a t ih =>
    rw [List.find?_eq_none] at h
    have ha : ¬ p a = true := h a (List.mem_cons_self a t)
    have ht : t.find? p = none :=
      List.find?_eq_none.mpr fun x hx => h x (List.mem_cons_of_mem a hx)
    rw [List.cons_append, List.find?_cons_of_neg _ ha, ih ht]

theorem sublist_insertIdx {α : Type} : ∀ (n : Nat) (x : α) (l : List α),
    l.Sublist (l.insertIdx n x)
  | 0, x, l => List.sublist_cons_self x l
  | _ + 1, _, [] => List.Sublist.refl []
  | n + 1, x, a :: t => by
    simpa using List.Sublist.cons₂ a (sublist_insertIdx n x t)

theorem getElem?_indexOf_self {α : Type} [BEq α] [LawfulBEq α]
    {a : α} {l : List α} (h : a ∈ l) : l[l.indexOf a]? = some a := by
  induction l with
  | nil => simp at h
  | cons b t ih =>
    by_cases hb : b == a
    · simp [List.indexOf_cons, hb, eq_of_beq hb]
    · have hm : a ∈ t := by
        rcases List.mem_cons.mp h with h1 | h1
        · exact absurd (by simp [h1]) hb
        · exact h1
      simp [List.indexOf_cons, hb, ih hm]

theorem insertIdx_after_indexOf (x : String) {p : String} :
    ∀ {l : List String},
    p ∈ l →
    ∃ i, (l.insertIdx (l.indexOf p + 1) x)[i]? = some p ∧
      (l.insertIdx (l.indexOf p + 1) x)[i + 1]? = some x ∧
      (l.insertIdx (l.indexOf p + 1) x).count x = l.count x + 1 ∧
      l.Sublist (l.insertIdx (l.indexOf p + 1) x)
  | [], h => by simp at h
  | a :: t, h => by
    by_cases ha : a == p
    · refine ⟨0, ?_⟩
      simp only [List.indexOf_cons, ha, cond_true, List.insertIdx_succ_cons,
        List.insertIdx_zero]
      refine ⟨by simpa using (eq_of_beq ha), by simp, ?_, ?_⟩
      · simp [List.count_cons]
        omega
      · exact List.Sublist.cons₂ a (List.sublist_cons_self x t)
    · have hm : p ∈ t := by
        rcases List.mem_cons.mp h with h1 | h1
        · exact absurd (by simp [h1]) ha
        · exact h1
      obtain ⟨i, h1, h2, h3, h4⟩ := insertIdx_after_indexOf x hm
      refine ⟨i + 1, ?_, ?_, ?_, ?_⟩
      · simpa [List.indexOf_cons, ha] using h1
      · simpa [List.indexOf_cons, ha] using h2
      · simp [List.indexOf_cons, ha, List.count_cons, h3]
        omega
      · simpa [List.indexOf_cons, ha] using List.Sublist.cons₂ a h4

end Taxonomy

/-! ### Frame and preservation lemmas for the engine operations -/

namespace Taxonomy

theorem storeEq_refl (st : Taxonomy) : storeEq st st :=
  ⟨rfl, rfl, rfl, rfl, rfl, rfl⟩

theorem storeEq_trans {s1 s2 s3 : Taxonomy} (h1 : storeEq s1 s2)
    (h2 : storeEq s2 s3) : storeEq s1 s3 :=
  ⟨h2.1.trans h1.1, h2.2.1.trans h1.2.1, h2.2.2.1.trans h1.2.2.1,
   h2.2.2.2.1.trans h1.2.2.2.1, h2.2.2.2.2.1.trans h1.2.2.2.2.1,
   h2.2.2.2.2.2.trans h1.2.2.2.2.2⟩

theorem indexOf_lt_length' {α : Type} [BEq α] [LawfulBEq α] {a : α}
    {l : List α} (h : a ∈ l) : l.indexOf a < l.length := by
  induction l with
  | nil => simp at h
  | cons b t ih =>
    by_cases hb : b == a
    · simp [List.indexOf_cons, hb]
    · have hm : a ∈ t := by
        rcases List.mem_cons.mp h with h1 | h1
        · exact absurd (by simp [h1]) hb
        · exact h1
      simp only [List.indexOf_cons, hb, cond_false, List.length_cons]
      exact Nat.succ_lt_succ (ih hm)

theorem add_rank_ok {st : Taxonomy} {rank parent : String} {st' : Taxonomy}
    (h : st._add_rank rank parent = .ok st') :
    storeEq st st' ∧ st'.cached = st.cached ∧ st'.taxa = st.taxa ∧
    st'.nodeLookups = st.nodeLookups ∧ st'.nameLookups = st.nameLookups ∧
    st.ranks.Sublist st'.ranks ∧ rank ∈ st'.ranks := by
  unfold _add_rank at h
  by_cases h1 : rank ∈ st.ranks
  · rw [if_pos h1] at h
    obtain rfl := Except.ok.inj h
    exact ⟨storeEq_refl st, rfl, rfl, rfl, rfl, List.Sublist.refl _, h1⟩
  · rw [if_neg h1] at h
    by_cases h2 : parent ∈ st.ranks
    · rw [if_pos h2] at h
      obtain rfl := Except.ok.inj h
      refine ⟨⟨rfl, rfl, rfl, rfl, rfl, rfl⟩, rfl, rfl, rfl, rfl,
        sublist_insertIdx _ _ _, ?_⟩
      have hlen : st.ranks.indexOf parent + 1 ≤ st.ranks.length :=
        indexOf_lt_length' h2
      exact (List.mem_insertIdx hlen).mpr (.inl rfl)
    · rw [if_neg h2] at h
      cases h

theorem rename_go_ok : ∀ {chain : List (String × Nat)} {st : Taxonomy}
    {pr : Option String} {d d' : List (String × Nat)} {st' : Taxonomy},
    _rename_undefined_go st pr d chain = .ok (st', d') →
    storeEq st st' ∧ st'.cached = st.cached ∧ st'.taxa = st.taxa ∧
    st'.nodeLookups = st.nodeLookups ∧ st'.nameLookups = st.nameLookups ∧
    st.ranks.Sublist st'.ranks
  | [], st, pr, d, d', st', h => by
    obtain ⟨rfl, rfl⟩ := Prod.mk.injEq .. ▸ Except.ok.inj h
    exact ⟨storeEq_refl st, rfl, rfl, rfl, rfl, List.Sublist.refl _⟩
  | (r, t) :: rest, st, pr, d, d', st', h => by
    simp only [_rename_undefined_go] at h
    by_cases hr : (r == st.undefined_rank) = true
    · rw [if_pos hr] at h
      match pr with
      | none => cases h
      | some p =>
        simp only at h
        cases hadd : st._add_rank (st.undef_pfx ++ "_" ++ p) p with
        | error e => rw [hadd] at h; cases h
        | ok st1 =>
          rw [hadd] at h
          obtain ⟨hs, hc, ht, hn1, hn2, hsub⟩ := rename_go_ok h
          obtain ⟨as, ac, at', an1, an2, asub, _⟩ := add_rank_ok hadd
          exact ⟨storeEq_trans as hs, hc.trans ac, ht.trans at',
            hn1.trans an1, hn2.trans an2, asub.trans hsub⟩
    · rw [if_neg hr] at h
      exact rename_go_ok h

end Taxonomy


namespace Taxonomy

theorem chainSpec_mono {nodes : List NodeRow} :
    ∀ {n m t : Nat} {l : List (String × Nat)},
    chainSpec nodes n t = some l → n ≤ m → chainSpec nodes m t = some l
  | 0, _, _, _, h, _ => by cases h
  | n + 1, 0, _, _, _, hle => absurd hle (by omega)
  | n + 1, m + 1, t, l, h, hle => by
    rw [chainSpec] at h ⊢
    cases hfind : nodes.find? (fun r => r.tax_id == t) with
    | none => simp [hfind] at h
    | some r =>
      simp only [hfind] at h ⊢
      by_cases hpar : r.parent_id = t
      · rwa [if_pos hpar] at h ⊢
      · rw [if_neg hpar] at h ⊢
        obtain ⟨pl, hpl, rfl⟩ := Option.map_eq_some'.mp h
        rw [chainSpec_mono hpl (Nat.le_of_succ_le_succ hle)]
        rfl

theorem chainSpec_unique {nodes : List NodeRow} {n m t : Nat}
    {l l' : List (String × Nat)} (h1 : chainSpec nodes n t = some l)
    (h2 : chainSpec nodes m t = some l') : l = l' := by
  have g1 := chainSpec_mono h1 (Nat.le_max_left n m)
  have g2 := chainSpec_mono h2 (Nat.le_max_right n m)
  rw [g1] at g2
  exact Option.some.inj g2

theorem chainSpec_ne_nil {nodes : List NodeRow} {n t : Nat}
    {l : List (String × Nat)} (h : chainSpec nodes n t = some l) : l ≠ [] := by
  match n with
  | 0 => cases h
  | n + 1 =>
    rw [chainSpec] at h
    cases hfind : nodes.find? (fun r => r.tax_id == t) with
    | none => simp [hfind] at h
    | some r =>
      simp only [hfind] at h
      by_cases hpar : r.parent_id = t
      · rw [if_pos hpar] at h
        obtain rfl := Option.some.inj h
        simp
      · rw [if_neg hpar] at h
        obtain ⟨pl, _, rfl⟩ := Option.map_eq_some'.mp h
        simp

theorem get_lineage_build_ok
    {recur : Taxonomy → Nat → Except String (Taxonomy × List (String × Nat))}
    (hrecur : ∀ {s : Taxonomy} {u : Nat} {s' : Taxonomy}
      {pl : List (String × Nat)}, recur s u = .ok (s', pl) →
      storeEq s s' ∧ s'.ranks = s.ranks ∧ s'.taxa = s.taxa ∧
      s'.nameLookups = s.nameLookups ∧ pl ≠ [] ∧
      dget s'.cached u = some pl ∧
      (∀ a v, dget s.cached a = some v → v ≠ [] → dget s'.cached a = some v))
    {st : Taxonomy} {t : Nat} {st' : Taxonomy} {l : List (String × Nat)}
    (h : _get_lineage_build recur st t = .ok (st', l))
    (harm : ∀ x xs, dget st.cached t = some (x :: xs) → False) :
    storeEq st st' ∧ st'.ranks = st.ranks ∧ st'.taxa = st.taxa ∧
    st'.nameLookups = st.nameLookups ∧ l ≠ [] ∧
    dget st'.cached t = some l ∧
    (∀ u v, dget st.cached u = some v → v ≠ [] → dget st'.cached u = some v) := by
  rw [_get_lineage_build] at h
  rw [_node] at h
  split at h
  · cases h
  · rename_i st1 pid rk hfind
    split at hfind
    · cases hfind
    · rename_i r hfind2
      have hinj := Except.ok.inj hfind
      obtain ⟨rfl, hinj2⟩ := Prod.mk.injEq .. ▸ hinj
      obtain ⟨rfl, rfl⟩ := Prod.mk.injEq .. ▸ hinj2
      split at h
      · rename_i hpar
        obtain ⟨rfl, rfl⟩ := Prod.mk.injEq .. ▸ Except.ok.inj h
        refine ⟨⟨rfl, rfl, rfl, rfl, rfl, rfl⟩, rfl, rfl, rfl, by simp,
          dget_dset_self .., ?_⟩
        intro u v hv hvne
        have hut : u ≠ t := by
          intro he
          subst he
          cases v with
          | nil => exact hvne rfl
          | cons a as => exact harm a as hv
        rw [dget_dset_ne _ hut]
        exact hv
      · rename_i hpar
        split at h
        · cases h
        · rename_i st2 pl hrec
          obtain ⟨rfl, rfl⟩ := Prod.mk.injEq .. ▸ Except.ok.inj h
          obtain ⟨hs, hr, ht, hnm, hne, hc, hpres⟩ := hrecur hrec
          refine ⟨⟨hs.1, hs.2.1, hs.2.2.1, hs.2.2.2.1, hs.2.2.2.2.1,
            hs.2.2.2.2.2⟩, hr, ht, hnm, by simp, dget_dset_self .., ?_⟩
          intro u v hv hvne
          have hut : u ≠ t := by
            intro he
            subst he
            cases v with
            | nil => exact hvne rfl
            | cons a as => exact harm a as hv
          rw [dget_dset_ne _ hut]
          exact hpres u v hv hvne

theorem get_lineage_ok :
    ∀ {fuel : Nat} {st : Taxonomy} {t : Nat} {st' : Taxonomy}
      {l : List (String × Nat)},
    _get_lineage fuel st t = .ok (st', l) →
    storeEq st st' ∧ st'.ranks = st.ranks ∧ st'.taxa = st.taxa ∧
    st'.nameLookups = st.nameLookups ∧ l ≠ [] ∧
    dget st'.cached t = some l ∧
    (∀ u v, dget st.cached u = some v → v ≠ [] → dget st'.cached u = some v)
  | 0, _, _, _, _, h => by rw [_get_lineage] at h; cases h
  | fuel + 1, st, t, st', l, h => by
    rw [_get_lineage] at h
    split at h
    · rename_i x xs heq
      obtain ⟨rfl, rfl⟩ := Prod.mk.injEq .. ▸ Except.ok.inj h
      exact ⟨storeEq_refl st, rfl, rfl, rfl, by simp, heq, fun u v hv _ => hv⟩
    · rename_i harm
      exact get_lineage_build_ok (fun hx => get_lineage_ok hx) h
        (fun x xs hx => harm x xs hx)

end Taxonomy

namespace Taxonomy

theorem node_ok {st : Taxonomy} {t : Nat} {st1 : Taxonomy} {pid : Nat}
    {rk : String} (h : st._node t = .ok (st1, pid, rk)) :
    st1 = { st with nodeLookups := st.nodeLookups + 1 } := by
  rw [_node] at h
  split at h
  · cases h
  · rename_i r hfind
    have hinj := Except.ok.inj h
    obtain ⟨h1, _⟩ := Prod.mk.injEq .. ▸ hinj
    exact h1.symm

theorem primary_name_ok {st : Taxonomy} {t : Nat} {st1 : Taxonomy}
    {nm : String} (h : st.primary_name t = .ok (st1, nm)) :
    st1 = { st with nameLookups := st.nameLookups + 1 } := by
  rw [primary_name] at h
  split at h
  · cases h
  · rename_i r hfind
    have hinj := Except.ok.inj h
    obtain ⟨h1, _⟩ := Prod.mk.injEq .. ▸ hinj
    exact h1.symm

theorem lineage_core_ok {fuel : Nat} {st : Taxonomy} {t : Nat}
    {st' : Taxonomy} {rec0 : LineageRecord}
    (h : lineage_core fuel st t = .ok (st', rec0)) :
    storeEq st st' ∧ st.ranks.Sublist st'.ranks ∧
    st'.taxa = dset st.taxa t rec0 ∧
    (∀ u v, dget st.cached u = some v → v ≠ [] → dget st'.cached u = some v) ∧
    ∃ ch, dget st'.cached t = some ch := by
  rw [lineage_core] at h
  split at h
  · cases h
  rename_i st1 chain hget
  split at h
  · cases h
  rename_i st2 d hren
  split at h
  · cases h
  rename_i st3 pid rk hnode
  split at h
  · cases h
  rename_i st4 nm hprim
  obtain ⟨rfl, rfl⟩ := Prod.mk.injEq .. ▸ Except.ok.inj h
  obtain ⟨gs, gr, gt, gn, gne, gc, gpres⟩ := get_lineage_ok hget
  obtain ⟨rs, rc, rt, rn1, rn2, rsub⟩ := rename_go_ok hren
  obtain rfl := node_ok hnode
  obtain rfl := primary_name_ok hprim
  refine ⟨?_, ?_, ?_, ?_, ?_⟩
  · exact storeEq_trans (storeEq_trans gs rs) ⟨rfl, rfl, rfl, rfl, rfl, rfl⟩
  · exact gr ▸ rsub
  · show dset st2.taxa t _ = dset st.taxa t _
    rw [rt, gt]
  · intro u v hv hvne
    show dget st2.cached u = some v
    rw [rc]
    exact gpres u v hv hvne
  · refine ⟨chain, ?_⟩
    show dget st2.cached t = some chain
    rw [rc]
    exact gc

end Taxonomy

namespace Taxonomy

theorem lineage1_ok {fuel : Nat} {st : Taxonomy} {t : Nat} {st' : Taxonomy}
    {rec0 : LineageRecord} (h : lineage1 fuel st t = .ok (st', rec0)) :
    storeEq st st' ∧ st.ranks.Sublist st'.ranks ∧
    (∀ u v, dget st.taxa u = some v → dget st'.taxa u = some v) ∧
    dget st'.taxa t = some rec0 ∧
    (∀ u v, dget st.cached u = some v → v ≠ [] → dget st'.cached u = some v) := by
  rw [lineage1] at h
  split at h
  · rename_i ldict heq
    obtain ⟨rfl, rfl⟩ := Prod.mk.injEq .. ▸ Except.ok.inj h
    exact ⟨storeEq_refl st, .refl _, fun u v hv => hv, heq, fun u v hv _ => hv⟩
  · rename_i heq
    obtain ⟨cs, csub, ct, cpres, _⟩ := lineage_core_ok h
    refine ⟨cs, csub, ?_, ?_, cpres⟩
    · intro u v hv
      have hut : u ≠ t := by
        intro he
        subst he
        rw [hv] at heq
        cases heq
      rw [ct, dget_dset_ne _ hut]
      exact hv
    · rw [ct]
      exact dget_dset_self ..

theorem cache_parents_go_ok :
    ∀ {lst : List (String × Nat)} {fuel : Nat} {st st' : Taxonomy},
    cache_parents_go fuel st lst = .ok st' →
    storeEq st st' ∧ st.ranks.Sublist st'.ranks ∧
    (∀ u v, dget st.taxa u = some v → dget st'.taxa u = some v) ∧
    (∀ u v, dget st.cached u = some v → v ≠ [] → dget st'.cached u = some v)
  | [], fuel, st, st', h => by
    obtain rfl := Except.ok.inj h
    exact ⟨storeEq_refl st, .refl _, fun u v hv => hv, fun u v hv _ => hv⟩
  | (p, tid) :: rest, fuel, st, st', h => by
    rw [cache_parents_go] at h
    split at h
    · cases h
    · rename_i stm recm hl1
      obtain ⟨as, asub, ataxa, _, acache⟩ := lineage1_ok hl1
      obtain ⟨bs, bsub, btaxa, bcache⟩ := cache_parents_go_ok h
      exact ⟨storeEq_trans as bs, asub.trans bsub,
        fun u v hv => btaxa u v (ataxa u v hv),
        fun u v hv hvne => bcache u v (acache u v hv hvne) hvne⟩

theorem lineage_ok {fuel : Nat} {st : Taxonomy} {t : Nat} {st' : Taxonomy}
    {rec0 : LineageRecord} (h : lineage fuel st t = .ok (st', rec0)) :
    storeEq st st' ∧ st.ranks.Sublist st'.ranks ∧
    (∀ u v, dget st.taxa u = some v → dget st'.taxa u = some v) ∧
    dget st'.taxa t = some rec0 ∧
    (∀ u v, dget st.cached u = some v → v ≠ [] → dget st'.cached u = some v) := by
  rw [lineage] at h
  split at h
  · rename_i ldict heq
    obtain ⟨rfl, rfl⟩ := Prod.mk.injEq .. ▸ Except.ok.inj h
    exact ⟨storeEq_refl st, .refl _, fun u v hv => hv, heq, fun u v hv _ => hv⟩
  · rename_i heq
    split at h
    · cases h
    · rename_i st1 ldict hcore
      split at h
      · cases h
      · rename_i chain hchain
        split at h
        · cases h
        · rename_i st2 hgo
          obtain ⟨rfl, rfl⟩ := Prod.mk.injEq .. ▸ Except.ok.inj h
          obtain ⟨cs, csub, ct, cpres, _⟩ := lineage_core_ok hcore
          obtain ⟨bs, bsub, btaxa, bcache⟩ := cache_parents_go_ok hgo
          refine ⟨storeEq_trans cs bs, csub.trans bsub, ?_, ?_, ?_⟩
          · intro u v hv
            have hut : u ≠ t := by
              intro he
              subst he
              rw [hv] at heq
              cases heq
            refine btaxa u v ?_
            rw [ct, dget_dset_ne _ hut]
            exact hv
          · refine btaxa t ldict ?_
            rw [ct]
            exact dget_dset_self ..
          · exact fun u v hv hvne => bcache u v (cpres u v hv hvne) hvne

end Taxonomy

/-! ### Claim C1 -/

namespace Taxonomy

theorem get_lineage_build_spec (n : Nat)
    {recur : Taxonomy → Nat → Except String (Taxonomy × List (String × Nat))}
    (hrecur : ∀ (s : Taxonomy) (u : Nat) (pl : List (String × Nat)),
      chainSpec s.nodes n u = some pl → cachedCoherent s →
      ∃ s', recur s u = .ok (s', pl) ∧ dget s'.cached u = some pl ∧
        cachedCoherent s' ∧ s'.nodes = s.nodes)
    (st : Taxonomy) (t : Nat) (l : List (String × Nat))
    (hspec : chainSpec st.nodes (n + 1) t = some l)
    (hcoh : cachedCoherent st) :
    ∃ st', _get_lineage_build recur st t = .ok (st', l) ∧
      dget st'.cached t = some l ∧ cachedCoherent st' ∧
      st'.nodes = st.nodes := by
  rw [chainSpec] at hspec
  cases hfind : st.nodes.find? (fun q => q.tax_id == t) with
  | none => rw [hfind] at hspec; cases hspec
  | some r =>
    rw [hfind] at hspec
    simp only at hspec
    by_cases hpar : r.parent_id = t
    · have hb : (r.parent_id == t) = true := by simpa using hpar
      rw [if_pos hpar] at hspec
      obtain rfl : l = [(r.rank, t)] := (Option.some.inj hspec).symm
      refine ⟨{ st with
                cached := dset st.cached t [(r.rank, t)]
                nodeLookups := st.nodeLookups + 1 }, ?_, ?_, ?_, rfl⟩
      · rw [_get_lineage_build, _node, hfind]
        simp only [hb]
        simp
      · exact dget_dset_self ..
      · intro u lu hu
        by_cases hut : u = t
        · subst hut
          rw [dget_dset_self] at hu
          obtain rfl := Option.some.inj hu
          refine ⟨n + 1, ?_⟩
          show chainSpec st.nodes (n + 1) u = _
          rw [chainSpec, hfind]
          simp [hpar]
        · rw [dget_dset_ne _ hut] at hu
          exact hcoh u lu hu
    · have hb : (r.parent_id == t) = false := by simpa using hpar
      rw [if_neg hpar] at hspec
      obtain ⟨pl, hpl, rfl⟩ := Option.map_eq_some'.mp hspec
      obtain ⟨st2, hrec, hc2, hcoh2, hn2⟩ :=
        hrecur { st with nodeLookups := st.nodeLookups + 1 }
          r.parent_id pl (by exact hpl) (by exact hcoh)
      have hnodes : st2.nodes = st.nodes := hn2
      refine ⟨{ st2 with
                cached := dset st2.cached t (pl ++ [(r.rank, t)]) },
              ?_, ?_, ?_, hnodes⟩
      · rw [_get_lineage_build, _node, hfind]
        simp [hb, hrec]
      · exact dget_dset_self ..
      · intro u lu hu
        by_cases hut : u = t
        · subst hut
          rw [dget_dset_self] at hu
          obtain rfl := Option.some.inj hu
          refine ⟨n + 1, ?_⟩
          show chainSpec st2.nodes (n + 1) u = _
          rw [hnodes, chainSpec, hfind]
          simp [hpar, hpl]
        · rw [dget_dset_ne _ hut] at hu
          exact hcoh2 u lu hu

theorem get_lineage_spec :
    ∀ (n : Nat) (st : Taxonomy) (t : Nat) (l : List (String × Nat)),
    chainSpec st.nodes n t = some l → cachedCoherent st →
    ∃ st', _get_lineage n st t = .ok (st', l) ∧ dget st'.cached t = some l ∧
      cachedCoherent st' ∧ st'.nodes = st.nodes
  | 0, _, _, _, hspec, _ => by rw [chainSpec] at hspec; cases hspec
  | n + 1, st, t, l, hspec, hcoh => by
    rw [_get_lineage]
    cases hc : dget st.cached t with
    | some cv =>
      cases cv with
      | nil =>
        exact get_lineage_build_spec n
          (fun s u pl hs hc0 => get_lineage_spec n s u pl hs hc0) st t l
          hspec hcoh
      | cons x xs =>
        obtain ⟨m, hm⟩ := hcoh t _ hc
        obtain rfl : l = x :: xs := chainSpec_unique hspec hm
        exact ⟨st, rfl, hc, hcoh, rfl⟩
    | none =>
      exact get_lineage_build_spec n
        (fun s u pl hs hc0 => get_lineage_spec n s u pl hs hc0) st t l
        hspec hcoh

/-- Claim C1: for every tax_id whose parent chain reaches a root node
(`chainSpec` — the spec's recurrence: the singleton `[(rank, tax_id)]` when
the node is its own parent, and otherwise the parent's chain with
`(rank, tax_id)` appended), `_get_lineage(tax_id)` returns exactly that
root-to-taxon list of `(rank, tax_id)` pairs and stores it in the
ancestor-chain cache keyed by `tax_id` (assuming the cache it starts from is
coherent, as an engine only ever caches chains it built). -/
theorem claim1_get_lineage_spec_chain (n : Nat) (st : Taxonomy) (t : Nat)
    (l : List (String × Nat)) (hspec : chainSpec st.nodes n t = some l)
    (hcoh : cachedCoherent st) :
    ∃ st', _get_lineage n st t = .ok (st', l) ∧ dget st'.cached t = some l ∧
      cachedCoherent st' ∧ st'.nodes = st.nodes :=
  get_lineage_spec n st t l hspec hcoh

/-- Concrete instance of claim C1 on `demoSt`: taxon 3 sits below the sentinel
taxon 2 below root 1. -/
theorem claim1_witness :
    ∃ st', _get_lineage 3 demoSt 3 =
        .ok (st', [("root", 1), ("no_rank", 2), ("species", 3)]) ∧
      dget st'.cached 3 = some [("root", 1), ("no_rank", 2), ("species", 3)] ∧
      cachedCoherent st' ∧ st'.nodes = demoSt.nodes :=
  claim1_get_lineage_spec_chain 3 demoSt 3
    [("root", 1), ("no_rank", 2), ("species", 3)] (by decide)
    (by intro u lu hu; simp [demoSt, dget] at hu)

end Taxonomy

/-! ### Claim C3 -/

namespace Taxonomy

/-- Claim C3: a second `lineage(tax_id)` call returns a result identical to
the first and leaves the engine state — including the `nodes`/`names` lookup
counters — exactly as it was, so it performs no additional store lookups;
moreover the record cached by the first call is never evicted or replaced by
any later `lineage` call for the lifetime of the engine state. -/
theorem claim3_lineage_idempotent_cache_hit (fuel : Nat) (st : Taxonomy)
    (t : Nat) (st1 : Taxonomy) (l1 : LineageRecord)
    (h : lineage fuel st t = .ok (st1, l1)) :
    lineage fuel st1 t = .ok (st1, l1) ∧
    (∀ st2 l2, lineage fuel st1 t = .ok (st2, l2) →
      st2.nodeLookups = st1.nodeLookups ∧ st2.nameLookups = st1.nameLookups ∧
      l2 = l1) ∧
    (∀ u st2 l2, lineage fuel st1 u = .ok (st2, l2) →
      dget st2.taxa t = some l1) := by
  have hrec : dget st1.taxa t = some l1 := (lineage_ok h).2.2.2.1
  have hsecond : lineage fuel st1 t = .ok (st1, l1) := by
    rw [lineage, hrec]
  refine ⟨hsecond, ?_, ?_⟩
  · intro st2 l2 h2
    rw [hsecond] at h2
    obtain ⟨rfl, rfl⟩ := Prod.mk.injEq .. ▸ Except.ok.inj h2
    exact ⟨rfl, rfl, rfl⟩
  · intro u st2 l2 h2
    exact (lineage_ok h2).2.2.1 t l1 hrec

/-- Concrete instance of claim C3 on `tinySt`: the first `lineage` call
performs two `nodes` lookups and one `names` lookup and yields `tinySt1`;
the second call is a pure cache hit. -/
theorem claim3_witness :
    lineage 2 tinySt 1 =
      .ok (tinySt1, { rankMap := [("root", 1)], tax_id := 1, parent_id := 1,
                      rank := "root", tax_name := "r" }) ∧
    lineage 2 tinySt1 1 =
      .ok (tinySt1, { rankMap := [("root", 1)], tax_id := 1, parent_id := 1,
                      rank := "root", tax_name := "r" }) :=
  ⟨rfl, (claim3_lineage_idempotent_cache_hit 2 tinySt 1 tinySt1 _ rfl).1⟩

end Taxonomy

/-! ### Claims C7, C8, C9 -/

namespace Taxonomy

/-- Claim C7: lookup failures raise a not-found error that propagates to the
caller: a `tax_id` absent from `nodes` makes `_node` — and hence `lineage` —
fail with the KeyError, and a `tax_id` with no primary row in `names` makes
`primary_name` fail with the KeyError; no default is substituted. (The
lineage hypothesis also requires the id not to be cached, as it is for any
id that was never resolvable, and at least one unit of recursion depth.) -/
theorem claim7_not_found_errors (st : Taxonomy) (t u fuel : Nat)
    (hnode : st.nodes.find? (fun r => r.tax_id == t) = none)
    (hcache : dget st.cached t = none)
    (htaxa : dget st.taxa t = none)
    (hname : st.names.find?
      (fun r => r.tax_id == u && r.is_primary == 1) = none) :
    st._node t = .error "KeyError: value not found in nodes.tax_id" ∧
    lineage (fuel + 1) st t =
      .error "KeyError: value not found in nodes.tax_id" ∧
    st.primary_name u = .error "KeyError: value not found in names.tax_id" := by
  have hgl : _get_lineage (fuel + 1) st t =
      .error "KeyError: value not found in nodes.tax_id" := by
    rw [_get_lineage, hcache]
    show _get_lineage_build _ st t = _
    rw [_get_lineage_build, _node, hnode]
  have hcore : lineage_core (fuel + 1) st t =
      .error "KeyError: value not found in nodes.tax_id" := by
    rw [lineage_core, hgl]
  refine ⟨?_, ?_, ?_⟩
  · rw [_node, hnode]
  · rw [lineage, htaxa, hcore]
  · rw [primary_name, hname]

/-- Concrete instance of claim C7 on `demoSt`: tax_id 99 exists nowhere. -/
theorem claim7_witness :
    demoSt._node 99 = .error "KeyError: value not found in nodes.tax_id" ∧
    lineage 3 demoSt 99 =
      .error "KeyError: value not found in nodes.tax_id" ∧
    demoSt.primary_name 99 =
      .error "KeyError: value not found in names.tax_id" :=
  claim7_not_found_errors demoSt 99 99 2 rfl rfl rfl rfl

/-- Claim C8: `add_node` raises ValueError when neither `source_id` nor
`source_name` is supplied; with a `source_id` it inserts the node row and a
primary-name row and returns the new taxon's freshly computed lineage; with
only a `source_name` it first resolves the source through `add_source`. -/
theorem claim8_add_node (fuel : Nat) (st : Taxonomy) (tax_id parent_id : Nat)
    (rank tax_name : String) :
    add_node fuel st tax_id parent_id rank tax_name none none =
      .error "ValueError: Taxonomy.add_node requires source_id or source_name" ∧
    (∀ (sid : Nat) (snm : Option String),
      add_node fuel st tax_id parent_id rank tax_name (some sid) snm =
        lineage fuel { st with
          nodes := st.nodes ++ [⟨tax_id, parent_id, rank, sid⟩]
          names := st.names ++ [⟨tax_id, tax_name, 1⟩] } tax_id) ∧
    (∀ snm : String,
      add_node fuel st tax_id parent_id rank tax_name none (some snm) =
        lineage fuel { (add_source st snm none).1 with
          nodes := (add_source st snm none).1.nodes ++
            [⟨tax_id, parent_id, rank, (add_source st snm none).2.1⟩]
          names := (add_source st snm none).1.names ++
            [⟨tax_id, tax_name, 1⟩] } tax_id) := by
  refine ⟨rfl, fun sid snm => ?_, fun snm => ?_⟩
  · cases snm <;> rfl
  · rfl

/-- Claim C9: `add_source` returns `(source_id, True)` when the insert
succeeds (the name was absent), and calling it again with the same name
returns the same `source_id` with `created = False` instead of propagating
the uniqueness conflict. -/
theorem claim9_add_source_conflict (st : Taxonomy) (name : String)
    (d1 d2 : Option String) :
    (st.source.find? (fun r => r.name == name) = none →
      (add_source st name d1).2.2 = true) ∧
    (add_source (add_source st name d1).1 name d2).2.1 =
      (add_source st name d1).2.1 ∧
    (add_source (add_source st name d1).1 name d2).2.2 = false := by
  cases hfind : st.source.find? (fun r => r.name == name) with
  | some r =>
    have h1 : add_source st name d1 = (st, r.id, false) := by
      rw [add_source, hfind]
    have h2 : add_source st name d2 = (st, r.id, false) := by
      rw [add_source, hfind]
    refine ⟨fun hn => ?_, ?_, ?_⟩
    · exact Option.noConfusion hn
    · simp only [h1, h2]
    · simp only [h1, h2]
  | none =>
    have h1 : add_source st name d1 =
        ({ st with
           source := st.source ++ [⟨st.sourceNextId, name, d1⟩]
           sourceNextId := st.sourceNextId + 1 }, st.sourceNextId, true) := by
      rw [add_source, hfind]
    have happ : ({ st with
        source := st.source ++ [⟨st.sourceNextId, name, d1⟩]
        sourceNextId := st.sourceNextId + 1 } : Taxonomy).source.find?
          (fun r => r.name == name) = some ⟨st.sourceNextId, name, d1⟩ := by
      show (st.source ++ [SourceRow.mk st.sourceNextId name d1]).find?
        (fun r => r.name == name) = some (SourceRow.mk st.sourceNextId name d1)
      rw [find?_append_none hfind]
      simp [List.find?]
    have h2 : add_source { st with
        source := st.source ++ [⟨st.sourceNextId, name, d1⟩]
        sourceNextId := st.sourceNextId + 1 } name d2 =
        ({ st with
           source := st.source ++ [⟨st.sourceNextId, name, d1⟩]
           sourceNextId := st.sourceNextId + 1 }, st.sourceNextId, false) := by
      rw [add_source, happ]
    refine ⟨fun _ => ?_, ?_, ?_⟩
    · simp only [h1]
    · simp only [h1, h2]
    · simp only [h1, h2]

/-- Concrete instance of claim C9 on `demoSt`: adding the source `"gg"`
twice creates it once (id 2) and then returns the same id uncreated. -/
theorem claim9_witness :
    demoSt.source.find? (fun r => r.name == "gg") = none ∧
    (add_source demoSt "gg" none).2.2 = true ∧
    (add_source (add_source demoSt "gg" none).1 "gg" none).2.1 =
      (add_source demoSt "gg" none).2.1 ∧
    (add_source (add_source demoSt "gg" none).1 "gg" none).2.2 = false := by
  have h := claim9_add_source_conflict demoSt "gg" none none
  exact ⟨rfl, h.1 rfl, h.2.1, h.2.2⟩

end Taxonomy

/-! ### Claim C10 -/

namespace Taxonomy

theorem add_rank_total {st : Taxonomy} (rank : String) {parent : String}
    (hp : parent ∈ st.ranks) : ∃ st1, st._add_rank rank parent = .ok st1 := by
  rw [_add_rank]
  by_cases h1 : rank ∈ st.ranks
  · rw [if_pos h1]
    exact ⟨st, rfl⟩
  · rw [if_neg h1, if_pos hp]
    exact ⟨_, rfl⟩

theorem rename_go_total :
    ∀ (rest : List (String × Nat)) (st : Taxonomy) (q : String)
      (d : List (String × Nat)),
    q ∈ st.ranks →
    (∀ p ∈ rest, p.1 ≠ st.undefined_rank → p.1 ∈ st.ranks) →
    ∃ st' d', _rename_undefined_go st (some q) d rest = .ok (st', d')
  | [], st, q, d, _, _ => ⟨st, d, rfl⟩
  | (r, t) :: rest, st, q, d, hq, hall => by
    simp only [_rename_undefined_go]
    by_cases hr : (r == st.undefined_rank) = true
    · rw [if_pos hr]
      obtain ⟨st1, hadd⟩ :=
        add_rank_total (st.undef_pfx ++ "_" ++ q) hq
      rw [hadd]
      obtain ⟨hs, hc, ht, hn1, hn2, hsub, hmem⟩ := add_rank_ok hadd
      have hcond : ∀ p ∈ rest, p.1 ≠ st1.undefined_rank →
          p.1 ∈ st1.ranks := by
        intro p hp hne
        refine hsub.mem (hall p (List.mem_cons_of_mem _ hp) ?_)
        rw [hs.2.2.2.2.1] at hne
        exact hne
      exact rename_go_total rest st1 (st.undef_pfx ++ "_" ++ q)
        (dset d (st.undef_pfx ++ "_" ++ q) t) hmem hcond
    · rw [if_neg hr]
      have hrm : r ∈ st.ranks :=
        hall (r, t) (List.mem_cons_self ..) (by simpa using hr)
      exact rename_go_total rest st r (dset d r t) hrm
        (fun p hp => hall p (List.mem_cons_of_mem _ hp))

/-- Claim C10 (amended): lineage renaming is only total when the first
element of the ancestor chain — the root — does not bear the undefined-rank
sentinel: a sentinel-ranked root makes the synthesis step concatenate with a
missing (`None`) parent rank and fail with a TypeError. When the first
element's rank is not the sentinel — and additionally every explicit
(non-sentinel) rank of the chain is registered in the Rank Registry, without
which `_add_rank` raises ValueError (see the counterexample) — renaming
succeeds. -/
theorem claim10_root_sentinel_typeerror (st : Taxonomy)
    (chain : List (String × Nat)) (r0 : String) (t0 : Nat)
    (rest : List (String × Nat)) (hchain : chain = (r0, t0) :: rest) :
    (r0 = st.undefined_rank →
      st._rename_undefined chain =
        .error "TypeError: cannot concatenate str and NoneType") ∧
    (r0 ≠ st.undefined_rank →
      (∀ p ∈ chain, p.1 ≠ st.undefined_rank → p.1 ∈ st.ranks) →
      ∃ st' d, st._rename_undefined chain = .ok (st', d)) := by
  subst hchain
  constructor
  · intro h0
    rw [_rename_undefined]
    simp only [_rename_undefined_go]
    rw [if_pos (by simpa using h0)]
  · intro h0 hall
    rw [_rename_undefined]
    simp only [_rename_undefined_go]
    rw [if_neg (by simpa using h0)]
    exact rename_go_total rest st r0 (dset [] r0 t0)
      (hall (r0, t0) (List.mem_cons_self ..) h0)
      (fun p hp => hall p (List.mem_cons_of_mem _ hp))

/-- Counterexample to claim C10 as stated: a chain whose first element's rank
`"funky"` is not the sentinel, but renaming still fails (with ValueError, not
TypeError) because the sentinel node's parent rank `"funky"` is not in the
Rank Registry `["root"]`, so `.index` in `_add_rank` raises. -/
theorem claim10_counterexample :
    ("funky" : String) ≠ tinySt.undefined_rank ∧
    tinySt._rename_undefined [("funky", 1), ("no_rank", 2)] =
      .error "ValueError: parent_rank is not in list" :=
  ⟨by decide, by rfl⟩

/-- Concrete instance of claim C10 on `tinySt`: a sentinel-ranked root gives
the TypeError; a chain with a registered explicit root rank renames fine. -/
theorem claim10_witness :
    tinySt._rename_undefined [("no_rank", 1)] =
      .error "TypeError: cannot concatenate str and NoneType" ∧
    ∃ st' d, tinySt._rename_undefined [("root", 1), ("no_rank", 2)] =
      .ok (st', d) :=
  ⟨(claim10_root_sentinel_typeerror tinySt [("no_rank", 1)] "no_rank" 1 []
      rfl).1 rfl,
   (claim10_root_sentinel_typeerror tinySt [("root", 1), ("no_rank", 2)]
      "root" 1 [("no_rank", 2)] rfl).2 (by decide) (by decide)⟩

end Taxonomy

/-! ### Claim C2 -/

namespace Taxonomy

theorem rename_two_step (st : Taxonomy) (p : String) (a t1 : Nat)
    (hps' : (p == st.undefined_rank) = false)
    {stI : Taxonomy}
    (hadd : st._add_rank (st.undef_pfx ++ "_" ++ p) p = .ok stI)
    (hne : (p == st.undef_pfx ++ "_" ++ p) = false) :
    st._rename_undefined [(p, a), (st.undefined_rank, t1)] =
      .ok (stI, [(p, a), (st.undef_pfx ++ "_" ++ p, t1)]) := by
  rw [_rename_undefined]
  simp only [_rename_undefined_go, hps', beq_self_eq_true, Bool.false_eq_true,
    if_false, if_true, hadd]
  simp [dset, hne]

/-- Claim C2 (amended): a chain node whose rank is the sentinel gets the
synthesized label formed by concatenating the fixed head with `"_"` and the
parent's rank label, so two taxa whose parents bear the same rank label get
the identical synthesized label string; provided that label was not already
registered beforehand, after both constructions — in either order, however
many times — the Rank Registry contains exactly one entry for it, positioned
immediately after the parent rank. -/
theorem claim2_rank_synthesis_deterministic (st : Taxonomy) (p : String)
    (a t1 b t2 : Nat) (hps : p ≠ st.undefined_rank) (hp : p ∈ st.ranks)
    (hfresh : st.undef_pfx ++ "_" ++ p ∉ st.ranks) :
    ∃ st1 st2 i,
      st._rename_undefined [(p, a), (st.undefined_rank, t1)] =
        .ok (st1, [(p, a), (st.undef_pfx ++ "_" ++ p, t1)]) ∧
      st1._rename_undefined [(p, b), (st.undefined_rank, t2)] =
        .ok (st2, [(p, b), (st.undef_pfx ++ "_" ++ p, t2)]) ∧
      st2 = st1 ∧
      st2.ranks.count (st.undef_pfx ++ "_" ++ p) = 1 ∧
      st2.ranks[i]? = some p ∧
      st2.ranks[i + 1]? = some (st.undef_pfx ++ "_" ++ p) := by
  have hps' : (p == st.undefined_rank) = false := by simpa using hps
  have hnep : p ≠ st.undef_pfx ++ "_" ++ p := fun he => hfresh (he ▸ hp)
  have hne : (p == st.undef_pfx ++ "_" ++ p) = false := by simpa using hnep
  have hadd1 : st._add_rank (st.undef_pfx ++ "_" ++ p) p =
      .ok { st with ranks := (st.ranks.insertIdx
              (st.ranks.indexOf p + 1) (st.undef_pfx ++ "_" ++ p)) } := by
    rw [_add_rank, if_neg hfresh, if_pos hp]
  obtain ⟨i, hgi, hgi1, hcount, hsub⟩ :=
    insertIdx_after_indexOf (st.undef_pfx ++ "_" ++ p) hp
  have hmemI : st.undef_pfx ++ "_" ++ p ∈
      st.ranks.insertIdx (st.ranks.indexOf p + 1)
        (st.undef_pfx ++ "_" ++ p) := by
    have hlen : st.ranks.indexOf p + 1 ≤ st.ranks.length :=
      indexOf_lt_length' hp
    exact (List.mem_insertIdx hlen).mpr (.inl rfl)
  have hadd2 : ({ st with ranks := (st.ranks.insertIdx
        (st.ranks.indexOf p + 1) (st.undef_pfx ++ "_" ++ p)) } :
        Taxonomy)._add_rank (st.undef_pfx ++ "_" ++ p) p =
      .ok { st with ranks := (st.ranks.insertIdx
              (st.ranks.indexOf p + 1) (st.undef_pfx ++ "_" ++ p)) } := by
    rw [_add_rank, if_pos hmemI]
  refine ⟨_, _, i, rename_two_step st p a t1 hps' hadd1 hne,
    rename_two_step _ p b t2 (by exact hps') hadd2 (by exact hne), rfl, ?_,
    hgi, hgi1⟩
  rw [hcount, List.count_eq_zero.mpr hfresh]

/-- Counterexample to claim C2 as stated: in `funkySt` the registry was
initialized as `["below_root", "root"]`, so for a sentinel taxon whose parent
bears rank `"root"` the synthesized label `"below_root"` is already
registered; registration is a no-op and the single entry sits before
`"root"`, not immediately after it. -/
theorem claim2_counterexample :
    funkySt._rename_undefined [("root", 1), ("no_rank", 2)] =
      .ok (funkySt, [("root", 1), ("below_root", 2)]) ∧
    funkySt.ranks.indexOf "below_root" ≠ funkySt.ranks.indexOf "root" + 1 :=
  ⟨by rfl, by decide⟩

/-- Concrete instance of claim C2 on `demoSt` with parent rank `"genus"`:
both sentinel taxa 6 and 8 get the label `"below_genus"`, registered once,
immediately after `"genus"`. -/
theorem claim2_witness :
    ∃ st1 st2 i,
      demoSt._rename_undefined [("genus", 5), ("no_rank", 6)] =
        .ok (st1, [("genus", 5), ("below_genus", 6)]) ∧
      st1._rename_undefined [("genus", 7), ("no_rank", 8)] =
        .ok (st2, [("genus", 7), ("below_genus", 8)]) ∧
      st2 = st1 ∧
      st2.ranks.count "below_genus" = 1 ∧
      st2.ranks[i]? = some "genus" ∧
      st2.ranks[i + 1]? = some "below_genus" :=
  claim2_rank_synthesis_deterministic demoSt "genus" 5 6 7 8
    (by decide) (by decide) (by decide)

end Taxonomy

/-! ### Claim C4 -/

namespace Taxonomy

theorem rename_go_keys :
    ∀ {chain : List (String × Nat)} {st : Taxonomy} {pr : Option String}
      {d d' : List (String × Nat)} {st' : Taxonomy},
    _rename_undefined_go st pr d chain = .ok (st', d') →
    ∀ k ∈ d'.map Prod.fst, k ∈ d.map Prod.fst ∨ k ∈ st'.ranks ∨
      ∃ tid, (k, tid) ∈ chain ∧ k ≠ st.undefined_rank
  | [], st, pr, d, d', st', h => by
    obtain ⟨rfl, rfl⟩ := Prod.mk.injEq .. ▸ Except.ok.inj h
    exact fun k hk => .inl hk
  | (r, t) :: rest, st, pr, d, d', st', h => by
    simp only [_rename_undefined_go] at h
    by_cases hr : (r == st.undefined_rank) = true
    · rw [if_pos hr] at h
      match pr with
      | none => cases h
      | some p =>
        simp only at h
        cases hadd : st._add_rank (st.undef_pfx ++ "_" ++ p) p with
        | error e => rw [hadd] at h; cases h
        | ok st1 =>
          rw [hadd] at h
          intro k hk
          have hsub1 : st1.ranks.Sublist st'.ranks :=
            (rename_go_ok h).2.2.2.2.2
          obtain ⟨as, _, _, _, _, _, amem⟩ := add_rank_ok hadd
          rcases rename_go_keys h k hk with h1 | h1 | h1
          · rcases keys_dset h1 with h2 | h2
            · exact .inr (.inl (hsub1.mem (h2 ▸ amem)))
            · exact .inl h2
          · exact .inr (.inl h1)
          · obtain ⟨tid, hmem, hne⟩ := h1
            refine .inr (.inr ⟨tid, List.mem_cons_of_mem _ hmem, ?_⟩)
            rw [as.2.2.2.2.1] at hne
            exact hne
    · rw [if_neg hr] at h
      intro k hk
      rcases rename_go_keys h k hk with h1 | h1 | h1
      · rcases keys_dset h1 with h2 | h2
        · subst h2
          exact .inr (.inr ⟨t, List.mem_cons_self .., by simpa using hr⟩)
        · exact .inl h2
      · exact .inr (.inl h1)
      · obtain ⟨tid, hmem, hne⟩ := h1
        exact .inr (.inr ⟨tid, List.mem_cons_of_mem _ hmem, hne⟩)

/-- Claim C4 (amended): during lineage construction the Rank Registry is
only ever extended, never shrunk, and every key of the rank map produced by
`_rename_undefined` is either present in the registry after the call returns
— in particular every synthesized label is — or was an explicit non-sentinel
rank read from the chain; such explicit ranks are *not* added to the
registry (see the counterexample), and a synthesized label's position
immediately after its generating parent's rank is the subject of the
rank-synthesis determinism claim. -/
theorem claim4_registry_only_extended (st : Taxonomy)
    (chain : List (String × Nat)) (st' : Taxonomy) (d : List (String × Nat))
    (h : st._rename_undefined chain = .ok (st', d)) :
    st.ranks.Sublist st'.ranks ∧
    ∀ k ∈ d.map Prod.fst, k ∈ st'.ranks ∨
      ∃ tid, (k, tid) ∈ chain ∧ k ≠ st.undefined_rank := by
  refine ⟨(rename_go_ok h).2.2.2.2.2, ?_⟩
  intro k hk
  rcases rename_go_keys h k hk with h1 | h1 | h1
  · simp at h1
  · exact .inl h1
  · exact .inr h1

/-- Counterexample to claim C4 as stated: in `funkySt` the root node's
explicit rank `"funky"` is produced during lineage construction, the lineage
call succeeds, and yet `"funky"` is not present in the Rank Registry after
the call returns — explicit ranks are never registered. -/
theorem claim4_counterexample :
    lineage 2 funkySt 1 =
      .ok (funkySt1, { rankMap := [("funky", 1)], tax_id := 1, parent_id := 1,
                       rank := "funky", tax_name := "f" }) ∧
    "funky" ∉ funkySt1.ranks :=
  ⟨by rfl, by decide⟩

/-- Concrete instance of claim C4 (amended) on `demoSt`'s full chain: the
registry grows from `["root", "genus", "species"]` by the synthesized
`"below_root"`, every produced key is registered or explicit. -/
theorem claim4_witness :
    demoSt.ranks.Sublist ["root", "below_root", "genus", "species"] ∧
    ∀ k ∈ (([("root", 1), ("below_root", 2), ("species", 3)] :
        List (String × Nat)).map Prod.fst),
      k ∈ (["root", "below_root", "genus", "species"] : List String) ∨
      ∃ tid, (k, tid) ∈ ([("root", 1), ("no_rank", 2), ("species", 3)] :
        List (String × Nat)) ∧ k ≠ demoSt.undefined_rank := by
  have h := claim4_registry_only_extended demoSt
    [("root", 1), ("no_rank", 2), ("species", 3)]
    { demoSt with ranks := ["root", "below_root", "genus", "species"] }
    [("root", 1), ("below_root", 2), ("species", 3)] (by rfl)
  exact h

end Taxonomy

/-! ### Claims C5 and C6 -/

namespace Taxonomy

theorem lineage_cached_hit {fuel : Nat} {st : Taxonomy} {t : Nat}
    {rec0 : LineageRecord} (h : dget st.taxa t = some rec0) :
    lineage fuel st t = .ok (st, rec0) := by
  rw [lineage, h]

theorem write_rows_all_cached (fuel : Nat) (fields : List String) :
    ∀ (ts : List Nat) (st : Taxonomy),
    (∀ t ∈ ts, (dget st.taxa t).isSome) →
    write_rows fuel fields st ts =
      .ok (st, ts.map (fun t => fields.map (cellFor
        ((dget st.taxa t).getD (LineageRecord.mk [] 0 0 "" "")))))
  | [], st, _ => rfl
  | t :: rest, st, hall => by
    obtain ⟨rec0, hr⟩ := Option.isSome_iff_exists.mp
      (hall t (List.mem_cons_self ..))
    have hrest := write_rows_all_cached fuel fields rest st
      (fun u hu => hall u (List.mem_cons_of_mem _ hu))
    simp only [write_rows, lineage_cached_hit hr, hrest, List.map_cons, hr,
      Option.getD_some]

/-- Claim C5 (amended): when every exported taxon already has a cached
lineage record, `write_table` leaves the engine state — the ancestor-chain
cache, the lineage-record cache and the Rank Registry — exactly as it was:
writing is then a pure projection of cached state to tabular output. (When
some exported taxon is uncached, the row loop's `lineage` call builds and
caches it, mutating the state — see the counterexample.) -/
theorem claim5_write_table_pure_when_cached (fuel : Nat) (st : Taxonomy)
    (taxa : Option (List Nat)) (full : Bool)
    (h : ∀ t ∈ taxaArg st taxa, (dget st.taxa t).isSome) :
    ∃ hdr rows, write_table fuel st taxa full = .ok (st, hdr, rows) := by
  rw [write_table, write_rows_all_cached fuel _ (taxaArg st taxa) st h]
  exact ⟨_, _, rfl⟩

/-- Counterexample to claim C5 as stated: on the fresh engine `tinySt`,
`write_table` over the explicitly requested taxon 1 — which is not yet
cached — builds its lineage in the row loop, mutating all the caches and
the lookup counters (`tinySt1 ≠ tinySt`). -/
theorem claim5_counterexample :
    write_table 2 tinySt (some [1]) false =
      .ok (tinySt1, ["tax_id", "parent_id", "rank", "tax_name"],
           [[some "1", some "1", some "root", some "r"]]) ∧
    tinySt1 ≠ tinySt :=
  ⟨by rfl, by decide⟩

/-- Concrete instance of claim C5 (amended) on `twoRecSt`, whose two cached
taxa are exported by default. -/
theorem claim5_witness :
    ∃ hdr rows, write_table 2 twoRecSt none false =
      .ok (twoRecSt, hdr, rows) :=
  claim5_write_table_pure_when_cached 2 twoRecSt none false (by decide)

/-- Claim C6 (amended): the column set emitted by `write_table` is
`[tax_id, parent_id, rank, tax_name]` followed by rank columns in registry
order — the entire Rank Registry with `full=true`, and with `full=false`
only the labels appearing as a key in at least one cached lineage record;
and with `full=false`, *provided the exported taxa cover the lineage-record
cache* (as they do for the default taxa argument), no emitted rank column is
empty across all exported rows. (Without coverage a rank represented only in
an unexported record yields an all-empty column — see the counterexample.) -/
theorem claim6_write_table_columns (fuel : Nat) (st : Taxonomy)
    (taxa : Option (List Nat)) (full : Bool) (st' : Taxonomy)
    (hdr : List String) (rows : List (List (Option String)))
    (hw : write_table fuel st taxa full = .ok (st', hdr, rows))
    (hnd : (st.taxa.map Prod.fst).Nodup)
    (hcov : ∀ q ∈ st.taxa, q.1 ∈ taxaArg st taxa)
    (hcached : ∀ t ∈ taxaArg st taxa, (dget st.taxa t).isSome) :
    (full = true → hdr = metaFields ++ st.ranks) ∧
    (full = false → hdr = metaFields ++
      st.ranks.filter (fun r => r ∈ represented st)) ∧
    (full = false → ∀ r ∈ hdr, r ∉ metaFields →
      ∃ row ∈ rows, ∃ c, row[hdr.indexOf r]? = some c ∧ c.isSome = true) := by
  rw [write_table, write_rows_all_cached fuel _ (taxaArg st taxa) st hcached]
    at hw
  obtain hinj := Except.ok.inj hw
  obtain ⟨rfl, hinj2⟩ := Prod.mk.injEq .. ▸ hinj
  obtain ⟨rfl, rfl⟩ := Prod.mk.injEq .. ▸ hinj2
  refine ⟨?_, ?_, ?_⟩
  · intro hfull; subst hfull; rfl
  · intro hfull; subst hfull; rfl
  · intro hfull r hr hrm
    subst hfull
    have hrf : r ∈ st.ranks.filter (fun r => r ∈ represented st) := by
      have hr' : r ∈ metaFields ++
          st.ranks.filter (fun r => r ∈ represented st) := by
        simpa using hr
      rcases List.mem_append.mp hr' with h1 | h1
      · exact absurd h1 hrm
      · exact h1
    have hrep : r ∈ represented st := by
      simpa using (List.mem_filter.mp hrf).2
    rw [represented] at hrep
    obtain ⟨ks, hks, hrks⟩ := List.mem_flatten.mp hrep
    obtain ⟨q, hq, rfl⟩ := List.mem_map.mp hks
    have hrmk : r ∈ q.2.rankMap.map Prod.fst := by
      rw [recKeys] at hrks
      rcases List.mem_append.mp hrks with h2 | h2
      · exact h2
      · exact absurd h2 hrm
    have hdq : dget st.taxa q.1 = some q.2 := dget_eq_of_mem_nodup hnd hq
    refine ⟨_, List.mem_map_of_mem _ (hcov q hq), cellFor q.2 r, ?_, ?_⟩
    · rw [List.getElem?_map, hdq]
      have hrhdr : r ∈ metaFields ++
          (if false then st.ranks
           else st.ranks.filter (fun r => r ∈ represented st)) := hr
      rw [getElem?_indexOf_self hrhdr]
      rfl
    · simp only [metaFields, List.mem_cons, List.not_mem_nil, or_false,
        not_or] at hrm
      obtain ⟨hm1, hm2, hm3, hm4⟩ := hrm
      rw [cellFor, if_neg (by simpa using hm1), if_neg (by simpa using hm2),
        if_neg (by simpa using hm3), if_neg (by simpa using hm4)]
      have hsome := dget_isSome_of_mem_keys hrmk
      cases hdm : dget q.2.rankMap r with
      | none => rw [hdm] at hsome; cases hsome
      | some v => rfl

/-- Counterexample to claim C6 as stated: `twoRecSt` caches records for taxa
1 and 2 but only taxon 1 is exported; the rank `"species"` appears only in
taxon 2's record, so with `full=false` a `"species"` column is emitted whose
value is missing in every exported row. -/
theorem claim6_counterexample :
    write_table 2 twoRecSt (some [1]) false =
      .ok (twoRecSt,
           ["tax_id", "parent_id", "rank", "tax_name", "root", "species"],
           [[some "1", some "1", some "root", some "r", some "1", none]]) ∧
    ("species" : String) ∉ metaFields ∧
    ([[some "1", some "1", some "root", some "r", some "1", none]] :
      List (List (Option String))).all
        (fun row => row.getLast? = some none) = true :=
  ⟨by rfl, by decide, by decide⟩

/-- Concrete instance of claim C6 (amended) on `twoRecSt` with the default
taxa argument, which covers the record cache. -/
theorem claim6_witness :
    (false = true →
      ["tax_id", "parent_id", "rank", "tax_name", "root", "species"] =
        metaFields ++ twoRecSt.ranks) ∧
    (false = false →
      ["tax_id", "parent_id", "rank", "tax_name", "root", "species"] =
        metaFields ++ twoRecSt.ranks.filter
          (fun r => r ∈ represented twoRecSt)) ∧
    (false = false → ∀ r ∈ (["tax_id", "parent_id", "rank", "tax_name",
        "root", "species"] : List String), r ∉ metaFields →
      ∃ row ∈ ([[some "1", some "1", some "root", some "r", some "1", none],
                [some "2", some "1", some "species", some "s", some "1",
                 some "2"]] : List (List (Option String))), ∃ c,
        row[(["tax_id", "parent_id", "rank", "tax_name", "root",
              "species"] : List String).indexOf r]? = some c ∧
        c.isSome = true) :=
  claim6_write_table_columns 2 twoRecSt none false twoRecSt
    ["tax_id", "parent_id", "rank", "tax_name", "root", "species"]
    [[some "1", some "1", some "root", some "r", some "1", none],
     [some "2", some "1", some "species", some "s", some "1", some "2"]]
    (by rfl) (by decide) (by decide) (by decide)

end Taxonomy
